import Mathlib

/-!
Verification of the tora binary serialization library.

A byte stream is modelled as a `List Nat` (each element one byte).
A decoder (Rust `FromReader`) is a function from the stream to either an
error or a decoded value paired with the unconsumed rest of the stream.
An encoder (Rust `SerializeIo`) is a pure function from a value to the
byte list it writes.
-/

namespace Tora

/-- Errors surfaced by decoding, mirroring the `std::io::ErrorKind` values
the library produces: a short read from `read_exact` (UnexpectedEof),
`InvalidData` (bad UTF-8 or bad scalar), `InvalidInput` (bad variant tag). -/
inductive IoErr : Type where
  | eof : IoErr
  | invalidData (msg : String) : IoErr
  | invalidInput (msg : String) : IoErr
deriving DecidableEq, Repr

/-- A decoder: consumes a byte stream, yields a value and the rest, or fails. -/
abbrev Rd (α : Type) : Type := List Nat → Except IoErr (α × List Nat)

/-- Rust `Read::read_exact` on our stream model: take exactly `n` bytes or fail
with an end-of-file I/O error when fewer are available. -/
def read_exact (n : Nat) (s : List Nat) : Except IoErr (List Nat × List Nat) :=
  if n ≤ s.length then .ok (s.take n, s.drop n) else .error .eof

/-- Little-endian byte list of width `w` for the value `v` (`to_le_bytes`);
each byte is `v`'s next base-256 digit, so overflow wraps as in Rust casts. -/
def natToLe : Nat → Nat → List Nat
  | 0, _ => []
  | w + 1, v => v % 256 :: natToLe w (v / 256)

/-- Value of a little-endian byte list (`from_le_bytes`). -/
def leToNat : List Nat → Nat
  | [] => 0
  | b :: bs => b + 256 * leToNat bs

/-- The `from_reader_impl!` macro for a numeric type of byte width `w`:
read exactly `w` bytes, reassemble little-endian.  (For the float types the
same `read_exact` is performed and the value is the raw little-endian bit
pattern.) -/
def from_reader_num (w : Nat) : Rd Nat := fun s =>
  (read_exact w s).map fun p => (leToNat p.1, p.2)

/-- The `serialize_io_num!` macro for a numeric type of byte width `w`:
write the little-endian bytes. -/
def serialize_num (w : Nat) (v : Nat) : List Nat :=
  natToLe w v

/-- Rust `impl SerializeIo for bool`: serializes `b as u8`, so one byte, 1 or 0. -/
def serialize_bool (b : Bool) : List Nat :=
  serialize_num 1 (if b then 1 else 0)

/-- Rust `impl FromReader for bool`: reads a `u8` and returns `x != 0`. -/
def from_reader_bool : Rd Bool := fun s =>
  (from_reader_num 1 s).map fun p => (decide (p.1 ≠ 0), p.2)

/-- Rust `impl SerializeIo for char`: serializes the code point as a `u32`. -/
def serialize_char (c : Nat) : List Nat :=
  serialize_num 4 c

/-- Rust `char::from_u32` succeeds exactly on Unicode scalar values. -/
def isScalar (c : Nat) : Bool :=
  c < 0x110000 && !(0xD800 ≤ c && c ≤ 0xDFFF)

/-- Rust `impl FromReader for char`: reads a `u32` and converts with
`char::from_u32`, failing with `InvalidData` on a non-scalar. -/
def from_reader_char : Rd Nat := fun s =>
  match from_reader_num 4 s with
  | .ok (c, rest) =>
      if isScalar c then .ok (c, rest)
      else .error (.invalidData "Not a character")
  | .error e => .error e

/-- A UTF-8 continuation byte. -/
def isCont (b : Nat) : Bool :=
  0x80 ≤ b && b ≤ 0xBF

/-- UTF-8 validity of a byte list, as checked by `String::from_utf8`
(standard UTF-8: no overlongs, no surrogates, max U+10FFFF). -/
def isValidUtf8 : List Nat → Bool
  | [] => true
  | b :: rest =>
    if b ≤ 0x7F then isValidUtf8 rest
    else if 0xC2 ≤ b && b ≤ 0xDF then
      match rest with
      | c1 :: r => isCont c1 && isValidUtf8 r
      | [] => false
    else if b = 0xE0 then
      match rest with
      | c1 :: c2 :: r => (0xA0 ≤ c1 && c1 ≤ 0xBF) && isCont c2 && isValidUtf8 r
      | _ => false
    else if (0xE1 ≤ b && b ≤ 0xEC) || b = 0xEE || b = 0xEF then
      match rest with
      | c1 :: c2 :: r => isCont c1 && isCont c2 && isValidUtf8 r
      | _ => false
    else if b = 0xED then
      match rest with
      | c1 :: c2 :: r => (0x80 ≤ c1 && c1 ≤ 0x9F) && isCont c2 && isValidUtf8 r
      | _ => false
    else if b = 0xF0 then
      match rest with
      | c1 :: c2 :: c3 :: r =>
          (0x90 ≤ c1 && c1 ≤ 0xBF) && isCont c2 && isCont c3 && isValidUtf8 r
      | _ => false
    else if 0xF1 ≤ b && b ≤ 0xF3 then
      match rest with
      | c1 :: c2 :: c3 :: r => isCont c1 && isCont c2 && isCont c3 && isValidUtf8 r
      | _ => false
    else if b = 0xF4 then
      match rest with
      | c1 :: c2 :: c3 :: r =>
          (0x80 ≤ c1 && c1 ≤ 0x8F) && isCont c2 && isCont c3 && isValidUtf8 r
      | _ => false
    else false

/-- The read loop of `impl FromReader for String`: read single bytes until a
`0x00` byte, accumulating the bytes before it; an exhausted stream is the
single-byte read failing with EOF. -/
def take_until_nul : List Nat → Except IoErr (List Nat × List Nat)
  | [] => .error .eof
  | b :: rest =>
    if b = 0 then .ok ([], rest)
    else (take_until_nul rest).map fun p => (b :: p.1, p.2)

/-- Rust `impl FromReader for String`: bytes up to the first NUL, validated as
UTF-8 (`InvalidData` otherwise).  A Rust `String` is modelled as its UTF-8
byte list. -/
def from_reader_string : Rd (List Nat) := fun s =>
  match take_until_nul s with
  | .ok (buf, rest) =>
      if isValidUtf8 buf then .ok (buf, rest)
      else .error (.invalidData "Invalid UTF-8")
  | .error e => .error e

/-- Rust `impl SerializeIo for &str`: write the UTF-8 bytes; if the string does
not end with the NUL character, append one NUL byte. -/
def serialize_str (bs : List Nat) : List Nat :=
  bs ++ (if bs.getLast? = some 0 then [] else [0])

/-- Rust `impl SerializeIo for Option<T>`: write `is_some` as a bool, then the
inner value when present. -/
def serialize_option (we : α → List Nat) : Option α → List Nat
  | some v => serialize_bool true ++ we v
  | none => serialize_bool false

/-- Rust `impl FromReader for Option<T>`: read a bool; if true read `Some`,
otherwise return `None`. -/
def from_reader_option (rd : Rd α) : Rd (Option α) := fun s =>
  match from_reader_bool s with
  | .ok (true, s1) =>
      match rd s1 with
      | .ok (v, s2) => .ok (some v, s2)
      | .error e => .error e
  | .ok (false, s1) => .ok (none, s1)
  | .error e => .error e

/-- Rust `impl SerializeIo for Result<T, E>`: write `is_err` as a bool, then the
error value in the error branch, else the success value. -/
def serialize_result (we : α → List Nat) (weE : β → List Nat) :
    Sum α β → List Nat
  | .inl v => serialize_bool false ++ we v
  | .inr e => serialize_bool true ++ weE e

/-- Rust `impl FromReader for Result<T, E>`: read a bool; if true decode the
error type, else the success type. -/
def from_reader_result (rd : Rd α) (rdE : Rd β) : Rd (Sum α β) := fun s =>
  match from_reader_bool s with
  | .ok (true, s1) =>
      match rdE s1 with
      | .ok (e, s2) => .ok (.inr e, s2)
      | .error er => .error er
  | .ok (false, s1) =>
      match rd s1 with
      | .ok (v, s2) => .ok (.inl v, s2)
      | .error er => .error er
  | .error er => .error er

/-- Read `n` values with `rd` in order, as done by the loops in the
`Vec<T>` and `[T; N]` decoders. -/
def read_n (rd : Rd α) : Nat → Rd (List α)
  | 0 => fun s => .ok ([], s)
  | n + 1 => fun s =>
    match rd s with
    | .ok (x, s1) =>
        match read_n rd n s1 with
        | .ok (xs, s2) => .ok (x :: xs, s2)
        | .error e => .error e
    | .error e => .error e

/-- The `dyn_impl!` macro (`Vec<T>` / `&[T]` serialize): write the length
as a `u32`, then each element in order. -/
def serialize_vec (we : α → List Nat) (v : List α) : List Nat :=
  serialize_num 4 v.length ++ (v.map we).flatten

/-- Rust `impl FromReader for Vec<T>`: read a `u32` length, then that many
elements. -/
def from_reader_vec (rd : Rd α) : Rd (List α) := fun s =>
  match from_reader_num 4 s with
  | .ok (len, s1) => read_n rd len s1
  | .error e => .error e

/-- Rust `impl SerializeIo for [T; N]`: each element in order, no prefix bytes.
The array is modelled as its element list (of length `N`). -/
def serialize_arr (we : α → List Nat) (v : List α) : List Nat :=
  (v.map we).flatten

/-- Rust `impl FromReader for [T; N]`: read exactly `n` elements in order. -/
def from_reader_arr (rd : Rd α) (n : Nat) : Rd (List α) :=
  read_n rd n

/-- Rust `impl SerializeIo for ()`: writes nothing. -/
def serialize_unit : Unit → List Nat := fun _ => []

/-- Rust `impl FromReader for ()`: immediately returns the unit value. -/
def from_reader_unit : Rd Unit := fun s => .ok ((), s)

/-- Rust `impl SerializeIo for (T, Z)`: both components in order. -/
def serialize_pair (we1 : α → List Nat) (we2 : β → List Nat) (v : α × β) :
    List Nat :=
  we1 v.1 ++ we2 v.2

/-- Rust `impl FromReader for (T, Z)`: both components in order. -/
def from_reader_pair (rd1 : Rd α) (rd2 : Rd β) : Rd (α × β) := fun s =>
  match rd1 s with
  | .ok (x, s1) =>
      match rd2 s1 with
      | .ok (y, s2) => .ok ((x, y), s2)
      | .error e => .error e
  | .error e => .error e

/-- Rust `impl SerializeIo for (T, Z, H)`: the three components in order. -/
def serialize_triple (we1 : α → List Nat) (we2 : β → List Nat)
    (we3 : γ → List Nat) (v : α × β × γ) : List Nat :=
  we1 v.1 ++ we2 v.2.1 ++ we3 v.2.2

/-- Rust `impl FromReader for (T, Z, H)`: the three components in order. -/
def from_reader_triple (rd1 : Rd α) (rd2 : Rd β) (rd3 : Rd γ) :
    Rd (α × β × γ) := fun s =>
  match rd1 s with
  | .ok (x, s1) =>
      match from_reader_pair rd2 rd3 s1 with
      | .ok (yz, s2) => .ok ((x, yz), s2)
      | .error e => .error e
  | .error e => .error e

/-! ## Padding reader (`read.rs`) -/

/-- Rust `PaddedReader`: its only state is the padding byte count. -/
structure PaddedReader : Type where
  padding : Nat
deriving DecidableEq, Repr

/-- Rust `PaddedReader::reads`: read and discard `padding` bytes (via
`read_exact` on a scratch buffer), then decode `T` normally. -/
def PaddedReader.reads (pr : PaddedReader) (rd : Rd α) (s : List Nat) :
    Except IoErr (α × List Nat) :=
  match read_exact pr.padding s with
  | .ok (_, s1) => rd s1
  | .error e => .error e

/-- Rust `PaddedReader::reads_then_set_padding`: `self.reads(r)?`, then set the
padding to the new value; the question-mark operator returns the error with
`self` untouched.  Returns the read result together with the reader state
after the call. -/
def PaddedReader.reads_then_set_padding (pr : PaddedReader) (rd : Rd α)
    (new_padding : Nat) (s : List Nat) :
    (Except IoErr (α × List Nat)) × PaddedReader :=
  match pr.reads rd s with
  | .ok d => (.ok d, ⟨new_padding⟩)
  | .error e => (.error e, pr)

/-! ## The derive code generator (`tora_derive`)

The generator works on a type's declared shape.  The run-time meaning of
the code it emits is modelled as follows: a field declaration contributes
its type's decoder (`Rd`), and on the write side a run-time field value is
represented by the byte list its own `SerializeIo` call produces, since the
generated code only composes those calls and never inspects the bytes. -/

/-- Rust `to_write_variant`: the generated match arm for the variant declared at
position `variant_id`, under tag type of byte width `id_w`.  The literal
`#variant_id as #id_ty` is baked in at generation time; at run time the arm
writes it, then each bound field in declared order. -/
def to_write_variant (variant_id : Nat) (id_w : Nat)
    (fieldBytes : List (List Nat)) : List Nat :=
  serialize_num id_w variant_id ++ fieldBytes.flatten

/-- Rust `impl_write_enum`: one match arm per declared variant, enumerated in
declaration order; the variant's declared content (`δ`) only shapes the
pattern, never the tag.  Arm `i` is the function from that variant's
run-time field bytes to the bytes written. -/
def impl_write_enum (id_w : Nat) (variants : List δ) :
    List (List (List Nat) → List Nat) :=
  variants.enum.map fun iv => to_write_variant iv.1 id_w

/-- Rust `impl_read_enum`: the generated `FromReader` body for an enum named
`name`.  Reads the tag as the configured type (byte width `id_w`), converts
it `as usize`, and matches it against the arms generated by
`to_variant_match` (one per declared variant, in order; arm `i` decodes
variant `i`'s fields and constructs it); any other tag returns an
`InvalidInput` error naming the enum. -/
def impl_read_enum (id_w : Nat) (name : String) (arms : List (Rd α)) :
    Rd α := fun s =>
  match from_reader_num id_w s with
  | .ok (tag, s1) =>
      match arms.get? tag with
      | some arm => arm s1
      | none => .error (.invalidInput ("Invalid " ++ name ++ " variant id"))
  | .error e => .error e

/-- Sequence field decoders in declared order, as the generated
`Ok(Self { f1: r.reads()?, f2: r.reads()?, .. })` (and the tuple-struct
variant) does; the record is represented by its decoded field values in
declared order. -/
def read_seq (rds : List (Rd α)) : Rd (List α)
  | s =>
    match rds with
    | [] => .ok ([], s)
    | rd :: rest =>
      match rd s with
      | .ok (x, s1) =>
          match read_seq rest s1 with
          | .ok (xs, s2) => .ok (x :: xs, s2)
          | .error e => .error e
      | .error e => .error e

/-- Rust `impl_write_struct`: the generated serializer writes
`&self.#field` for each declared field in order; with run-time field values
represented by their own encodings, that is their concatenation. -/
def impl_write_struct (fieldBytes : List (List Nat)) : List Nat :=
  fieldBytes.flatten

/-- Rust `syn::Fields`: named fields, unnamed (tuple) fields, or a unit shape,
carrying per-field data `α`. -/
inductive Fields (α : Type) : Type where
  | named (fs : List (String × α)) : Fields α
  | unnamed (fs : List α) : Fields α
  | unit : Fields α

/-- Rust `syn::Fields::is_empty`: a unit shape or an empty field list. -/
def Fields.is_empty : Fields α → Bool
  | .named fs => fs.isEmpty
  | .unnamed fs => fs.isEmpty
  | .unit => true

/-- The outcome of a derive entry point: emitted logic, or the
definition-time compile error from `derive_empty_item_error` /
`Error::into_compile_error`. -/
inductive Derived (α : Type) : Type where
  | emitted (impl : α) : Derived α
  | compileError (msg : String) : Derived α

/-- The message produced by `derive_empty_item_error`. -/
def empty_item_msg : String := "This macro cannot be derived on empty items"

/-- Rust `derive_read_struct` entry point: reject empty shapes, else emit the
field-order decoder (named via `impl_read_struct_named`, tuple via
`impl_read_struct_tuple`); each declared field contributes its decoder. -/
def derive_read_struct (fields : Fields (Rd α)) : Derived (Rd (List α)) :=
  if fields.is_empty then .compileError empty_item_msg
  else
    match fields with
    | .named fs => .emitted (read_seq (fs.map Prod.snd))
    | .unnamed fs => .emitted (read_seq fs)
    | .unit => .compileError empty_item_msg

/-- Rust `derive_write_struct` entry point: reject empty shapes, else emit the
serializer writing each field in declared order. -/
def derive_write_struct (fields : Fields Unit) :
    Derived (List (List Nat) → List Nat) :=
  if fields.is_empty then .compileError empty_item_msg
  else .emitted impl_write_struct

/-- Rust `derive_read_enum` entry point: reject an empty variant list, else emit
`impl_read_enum` with the configured tag width; each declared variant
contributes its arm's field decoder. -/
def derive_read_enum (name : String) (id_w : Nat) (variantArms : List (Rd α)) :
    Derived (Rd α) :=
  if variantArms.isEmpty then .compileError empty_item_msg
  else .emitted (impl_read_enum id_w name variantArms)

/-- Rust `derive_write_enum` entry point: reject an empty variant list, else
emit the per-variant match arms of `impl_write_enum`. -/
def derive_write_enum (id_w : Nat) (variants : List δ) :
    Derived (List (List (List Nat) → List Nat)) :=
  if variants.isEmpty then .compileError empty_item_msg
  else .emitted (impl_write_enum id_w variants)

/-! ## Concrete derived types (from `tora_derive/tests/tests.rs`) -/

/-- Rust `struct NamedPacket { id: u8, sender: String, content: Vec<u8> }`. -/
structure NamedPacket : Type where
  id : Nat
  sender : List Nat
  content : List Nat
deriving DecidableEq, Repr

/-- The `WriteStruct` derive output for `NamedPacket`: fields in declared
order. -/
def serialize_NamedPacket (p : NamedPacket) : List Nat :=
  serialize_num 1 p.id ++ serialize_str p.sender ++
    serialize_vec (serialize_num 1) p.content

/-- The `ReadStruct` derive output for `NamedPacket`: decode each field in
declared order and assemble. -/
def from_reader_NamedPacket : Rd NamedPacket := fun s =>
  match from_reader_num 1 s with
  | .ok (id, s1) =>
      match from_reader_string s1 with
      | .ok (sender, s2) =>
          match from_reader_vec (from_reader_num 1) s2 with
          | .ok (content, s3) => .ok (⟨id, sender, content⟩, s3)
          | .error e => .error e
      | .error e => .error e
  | .error e => .error e

/-- Rust `enum EnumPacket { Ping, PlayerJoin(u8, String), PlayerMove { player_id,
destination: [f64; 3] } }` with `type_variant_id(i64)`; `f64` values are
represented by their 8 raw little-endian bytes' value. -/
inductive EnumPacket : Type where
  | ping : EnumPacket
  | playerJoin (x0 : Nat) (x1 : List Nat) : EnumPacket
  | playerMove (player_id : Nat) (destination : List Nat) : EnumPacket
deriving DecidableEq, Repr

/-- The `WriteEnum` derive output for `EnumPacket`: the 8-byte tag by
declaration position, then that variant's fields in order. -/
def serialize_EnumPacket : EnumPacket → List Nat
  | .ping => serialize_num 8 0
  | .playerJoin x0 x1 => serialize_num 8 1 ++ serialize_num 1 x0 ++ serialize_str x1
  | .playerMove pid dest =>
      serialize_num 8 2 ++ serialize_num 1 pid ++ serialize_arr (serialize_num 8) dest

/-- The `ReadEnum` derive output for `EnumPacket`: read the `i64` tag and
dispatch to the declared variant's field decoders. -/
def from_reader_EnumPacket : Rd EnumPacket :=
  impl_read_enum 8 "EnumPacket"
    [fun s => .ok (.ping, s),
     fun s =>
       match from_reader_num 1 s with
       | .ok (x0, s1) =>
           match from_reader_string s1 with
           | .ok (x1, s2) => .ok (.playerJoin x0 x1, s2)
           | .error e => .error e
       | .error e => .error e,
     fun s =>
       match from_reader_num 1 s with
       | .ok (pid, s1) =>
           match from_reader_arr (from_reader_num 8) 3 s1 with
           | .ok (dest, s2) => .ok (.playerMove pid dest, s2)
           | .error e => .error e
       | .error e => .error e]

/-! ## Round-trip specification -/

/-- An encoder/decoder pair round-trips on `v` when decoding the encoding
of `v` followed by any suffix yields `v` and leaves exactly the suffix. -/
def RT (rd : Rd α) (we : α → List Nat) (v : α) : Prop :=
  ∀ r, rd (we v ++ r) = .ok (v, r)

end Tora

deriving instance DecidableEq for Except

namespace Tora

/-! ## Helper lemmas -/

theorem natToLe_length (w v : Nat) : (natToLe w v).length = w := by
  induction w generalizing v with
  | zero => rfl
  | succ w ih => simp [natToLe, ih]

theorem leToNat_natToLe (w v : Nat) : leToNat (natToLe w v) = v % 256 ^ w := by
  induction w generalizing v with
  | zero => simp [natToLe, leToNat, Nat.mod_one]
  | succ w ih =>
    simp only [natToLe, leToNat, ih]
    have hdvd : (256 : Nat) ∣ 256 ^ (w + 1) := dvd_pow_self 256 (Nat.succ_ne_zero w)
    have h1 : v % 256 ^ (w + 1) % 256 = v % 256 := Nat.mod_mod_of_dvd v hdvd
    have h2 : v % (256 * 256 ^ w) / 256 = v / 256 % 256 ^ w :=
      Nat.mod_mul_right_div_self v 256 (256 ^ w)
    have h3 : (256 : Nat) * 256 ^ w = 256 ^ (w + 1) := by ring
    have h4 : v % 256 ^ (w + 1) % 256 + 256 * (v % 256 ^ (w + 1) / 256) =
        v % 256 ^ (w + 1) := Nat.mod_add_div _ _
    rw [h3] at h2
    omega

theorem read_exact_of_length (n : Nat) (l r : List Nat) (h : l.length = n) :
    read_exact n (l ++ r) = .ok (l, r) := by
  subst h
  simp [read_exact]

theorem read_exact_short (n : Nat) (s : List Nat) (h : s.length < n) :
    read_exact n s = .error .eof := by
  simp [read_exact, Nat.not_le.mpr h]

theorem from_reader_num_rt (w v : Nat) (hv : v < 256 ^ w) :
    RT (from_reader_num w) (serialize_num w) v := by
  intro r
  simp [from_reader_num, serialize_num, Except.map,
    read_exact_of_length w _ r (natToLe_length w v),
    leToNat_natToLe, Nat.mod_eq_of_lt hv]

theorem from_reader_num_short (w : Nat) (s : List Nat) (h : s.length < w) :
    from_reader_num w s = .error .eof := by
  simp [from_reader_num, read_exact_short w s h, Except.map]

theorem serialize_bool_eq (b : Bool) :
    serialize_bool b = [if b then 1 else 0] := by
  cases b <;> rfl

theorem from_reader_bool_cons (b : Nat) (r : List Nat) :
    from_reader_bool (b :: r) = .ok (decide (b ≠ 0), r) := by
  simp [from_reader_bool, from_reader_num, read_exact, leToNat, Except.map]

theorem from_reader_bool_rt (b : Bool) : RT from_reader_bool serialize_bool b := by
  intro r
  cases b <;> simp [serialize_bool_eq, from_reader_bool_cons]

theorem take_until_nul_append (bs r : List Nat) (h : 0 ∉ bs) :
    take_until_nul (bs ++ 0 :: r) = .ok (bs, r) := by
  induction bs with
  | nil => simp [take_until_nul]
  | cons b bs ih =>
    have hb : b ≠ 0 := fun hb0 => h (hb0 ▸ List.mem_cons_self b bs)
    have hnm : 0 ∉ bs := fun hm => h (List.mem_cons_of_mem b hm)
    simp [take_until_nul, hb, ih hnm, Except.map]

theorem serialize_str_no_nul (bs : List Nat) (h : 0 ∉ bs) :
    serialize_str bs = bs ++ [0] := by
  have hlast : bs.getLast? ≠ some 0 := by
    intro hl
    have hmem : (0 : Nat) ∈ bs.getLast? := by rw [hl]; rfl
    obtain ⟨hne, hx⟩ := List.mem_getLast?_eq_getLast hmem
    exact h (hx ▸ List.getLast_mem hne)
  simp [serialize_str, hlast]

theorem from_reader_string_rt (bs : List Nat) (hu : isValidUtf8 bs = true)
    (h : 0 ∉ bs) : RT from_reader_string serialize_str bs := by
  intro r
  rw [serialize_str_no_nul bs h]
  simp only [from_reader_string, List.append_assoc, List.singleton_append,
    take_until_nul_append bs r h, hu]
  rfl

theorem take_until_nul_ok (s bs rest : List Nat)
    (h : take_until_nul s = .ok (bs, rest)) :
    0 ∉ bs ∧ s = bs ++ 0 :: rest := by
  induction s generalizing bs rest with
  | nil => simp [take_until_nul] at h
  | cons b s ih =>
    by_cases hb : b = 0
    · subst hb
      simp only [take_until_nul, if_pos rfl, Except.ok.injEq, Prod.mk.injEq] at h
      obtain ⟨rfl, rfl⟩ := h
      exact ⟨List.not_mem_nil 0, rfl⟩
    · cases htail : take_until_nul s with
      | error e =>
        simp [take_until_nul, hb, htail, Except.map] at h
      | ok p =>
        obtain ⟨bs', rest'⟩ := p
        simp only [take_until_nul, if_neg hb, htail, Except.map,
          Except.ok.injEq, Prod.mk.injEq] at h
        obtain ⟨rfl, rfl⟩ := h
        obtain ⟨hnm, hs⟩ := ih bs' rest' htail
        refine ⟨?_, by simp [hs]⟩
        intro hmem
        rcases List.mem_cons.mp hmem with h0 | h0
        · exact hb h0.symm
        · exact hnm h0

theorem from_reader_unit_rt (v : Unit) : RT from_reader_unit serialize_unit v := by
  intro r
  rfl

theorem from_reader_option_rt (rd : Rd α) (we : α → List Nat) (v : Option α)
    (hv : ∀ x, v = some x → RT rd we x) :
    RT (from_reader_option rd) (serialize_option we) v := by
  intro r
  cases v with
  | none =>
    have hb := from_reader_bool_rt false r
    simp only [serialize_option, from_reader_option, hb]
  | some x =>
    have hb := from_reader_bool_rt true (we x ++ r)
    simp only [serialize_option, from_reader_option, List.append_assoc, hb,
      hv x rfl r]

theorem from_reader_result_rt (rd : Rd α) (rdE : Rd β) (we : α → List Nat)
    (weE : β → List Nat) (v : Sum α β)
    (hok : ∀ x, v = .inl x → RT rd we x)
    (herr : ∀ e, v = .inr e → RT rdE weE e) :
    RT (from_reader_result rd rdE) (serialize_result we weE) v := by
  intro r
  cases v with
  | inl x =>
    have hb := from_reader_bool_rt false (we x ++ r)
    simp only [serialize_result, from_reader_result, List.append_assoc, hb,
      hok x rfl r]
  | inr e =>
    have hb := from_reader_bool_rt true (weE e ++ r)
    simp only [serialize_result, from_reader_result, List.append_assoc, hb,
      herr e rfl r]

theorem read_n_rt (rd : Rd α) (we : α → List Nat) (l : List α)
    (hl : ∀ x ∈ l, RT rd we x) (r : List Nat) :
    read_n rd l.length ((l.map we).flatten ++ r) = .ok (l, r) := by
  induction l with
  | nil => rfl
  | cons x l ih =>
    have hx : RT rd we x := hl x (List.mem_cons_self x l)
    have hrest : ∀ y ∈ l, RT rd we y := fun y hy => hl y (List.mem_cons_of_mem x hy)
    simp only [List.length_cons, List.map_cons, List.flatten_cons, read_n,
      List.append_assoc, hx ((List.map we l).flatten ++ r), ih hrest]

theorem from_reader_vec_rt (rd : Rd α) (we : α → List Nat) (l : List α)
    (hl : ∀ x ∈ l, RT rd we x) (hlen : l.length < 256 ^ 4) :
    RT (from_reader_vec rd) (serialize_vec we) l := by
  intro r
  have hnum := from_reader_num_rt 4 l.length hlen ((l.map we).flatten ++ r)
  simp only [serialize_num] at hnum
  simp only [serialize_vec, from_reader_vec, List.append_assoc, serialize_num,
    hnum, read_n_rt rd we l hl r]

theorem from_reader_arr_rt (rd : Rd α) (we : α → List Nat) (l : List α)
    (hl : ∀ x ∈ l, RT rd we x) :
    RT (from_reader_arr rd l.length) (serialize_arr we) l := by
  intro r
  simpa [from_reader_arr, serialize_arr] using read_n_rt rd we l hl r

theorem from_reader_pair_rt (rd1 : Rd α) (rd2 : Rd β) (we1 : α → List Nat)
    (we2 : β → List Nat) (v : α × β) (h1 : RT rd1 we1 v.1) (h2 : RT rd2 we2 v.2) :
    RT (from_reader_pair rd1 rd2) (serialize_pair we1 we2) v := by
  intro r
  simp only [serialize_pair, from_reader_pair, List.append_assoc,
    h1 (we2 v.2 ++ r), h2 r]

theorem from_reader_triple_rt (rd1 : Rd α) (rd2 : Rd β) (rd3 : Rd γ)
    (we1 : α → List Nat) (we2 : β → List Nat) (we3 : γ → List Nat) (v : α × β × γ)
    (h1 : RT rd1 we1 v.1) (h2 : RT rd2 we2 v.2.1) (h3 : RT rd3 we3 v.2.2) :
    RT (from_reader_triple rd1 rd2 rd3) (serialize_triple we1 we2 we3) v := by
  intro r
  have hp : RT (from_reader_pair rd2 rd3) (serialize_pair we2 we3) v.2 :=
    from_reader_pair_rt rd2 rd3 we2 we3 v.2 h2 h3
  have hp' := hp r
  simp only [serialize_pair, List.append_assoc] at hp'
  simp only [serialize_triple, from_reader_triple, List.append_assoc,
    h1 (we2 v.2.1 ++ (we3 v.2.2 ++ r)), hp']

theorem isScalar_lt (c : Nat) (hc : isScalar c = true) : c < 0x110000 := by
  simp only [isScalar, Bool.and_eq_true, decide_eq_true_eq] at hc
  exact hc.1

theorem from_reader_char_rt (c : Nat) (hc : isScalar c = true) :
    RT from_reader_char serialize_char c := by
  intro r
  have hs : c < 256 ^ 4 := by
    have := isScalar_lt c hc
    omega
  have hnum := from_reader_num_rt 4 c hs r
  simp only [from_reader_char, serialize_char, hnum, hc, if_pos]

theorem from_reader_NamedPacket_rt (p : NamedPacket) (hid : p.id < 256)
    (hu : isValidUtf8 p.sender = true) (hs : 0 ∉ p.sender)
    (hc : ∀ b ∈ p.content, b < 256) (hlen : p.content.length < 256 ^ 4) :
    RT from_reader_NamedPacket serialize_NamedPacket p := by
  intro r
  have h1 := from_reader_num_rt 1 p.id (by simpa using hid)
    (serialize_str p.sender ++ (serialize_vec (serialize_num 1) p.content ++ r))
  have h2 := from_reader_string_rt p.sender hu hs
    (serialize_vec (serialize_num 1) p.content ++ r)
  have h3 := from_reader_vec_rt (from_reader_num 1) (serialize_num 1) p.content
    (fun b hb => from_reader_num_rt 1 b (by simpa using hc b hb)) hlen r
  simp only [serialize_NamedPacket, from_reader_NamedPacket, List.append_assoc,
    h1, h2, h3]

/-- The typing invariants a Rust value of `EnumPacket` satisfies: bytes fit
in a `u8`, the string is valid NUL-free UTF-8, the array has 3 elements of
`f64` bit width. -/
def EnumPacketWF : EnumPacket → Prop
  | .ping => True
  | .playerJoin x0 x1 => x0 < 256 ∧ isValidUtf8 x1 = true ∧ 0 ∉ x1
  | .playerMove pid dest =>
      pid < 256 ∧ dest.length = 3 ∧ ∀ b ∈ dest, b < 256 ^ 8

theorem from_reader_EnumPacket_rt (v : EnumPacket) (hwf : EnumPacketWF v) :
    RT from_reader_EnumPacket serialize_EnumPacket v := by
  intro r
  cases v with
  | ping =>
    have ht := from_reader_num_rt 8 0 (by norm_num) r
    simp only [serialize_EnumPacket, from_reader_EnumPacket, impl_read_enum, ht,
      List.get?_eq_getElem?]
    rfl
  | playerJoin x0 x1 =>
    obtain ⟨h0, hu, hn⟩ := hwf
    have ht := from_reader_num_rt 8 1 (by norm_num)
      (serialize_num 1 x0 ++ (serialize_str x1 ++ r))
    have hx0 := from_reader_num_rt 1 x0 (by simpa using h0) (serialize_str x1 ++ r)
    have hx1 := from_reader_string_rt x1 hu hn r
    simp [serialize_EnumPacket, from_reader_EnumPacket, impl_read_enum,
      List.append_assoc, ht, hx0, hx1]
  | playerMove pid dest =>
    obtain ⟨h0, hd3, hdb⟩ := hwf
    have ht := from_reader_num_rt 8 2 (by norm_num)
      (serialize_num 1 pid ++ (serialize_arr (serialize_num 8) dest ++ r))
    have hpid := from_reader_num_rt 1 pid (by simpa using h0)
      (serialize_arr (serialize_num 8) dest ++ r)
    have harr : from_reader_arr (from_reader_num 8) 3
        (serialize_arr (serialize_num 8) dest ++ r) = .ok (dest, r) := by
      rw [← hd3]
      exact from_reader_arr_rt (from_reader_num 8) (serialize_num 8) dest
        (fun b hb => from_reader_num_rt 8 b (hdb b hb)) r
    simp [serialize_EnumPacket, from_reader_EnumPacket, impl_read_enum,
      List.append_assoc, ht, hpid, harr]

theorem padded_reads_eq (pr : PaddedReader) (rd : Rd α) (s : List Nat) :
    pr.reads rd s =
      if pr.padding ≤ s.length then rd (s.drop pr.padding)
      else .error .eof := by
  by_cases h : pr.padding ≤ s.length <;>
    simp [PaddedReader.reads, read_exact, h]

theorem impl_write_enum_get? (id_w : Nat) (variants : List δ) (i : Nat)
    (h : i < variants.length) :
    (impl_write_enum id_w variants).get? i = some (to_write_variant i id_w) := by
  simp only [impl_write_enum, List.get?_eq_getElem?, List.getElem?_map,
    List.getElem?_enum, List.getElem?_eq_getElem h]
  rfl

theorem impl_read_enum_bad_tag (id_w : Nat) (name : String) (arms : List (Rd α))
    (s s1 : List Nat) (tag : Nat) (hr : from_reader_num id_w s = .ok (tag, s1))
    (hge : arms.length ≤ tag) :
    impl_read_enum id_w name arms s =
      .error (.invalidInput ("Invalid " ++ name ++ " variant id")) := by
  simp only [impl_read_enum, hr, List.get?_eq_getElem?, List.getElem?_eq_none hge]

/-! ## Claims -/

/-- C1: encoding the record `{id: 5u8, sender: "John", content: vec![1,2,3]}`
with the generated record encoder produces exactly the bytes
`05 4A 6F 68 6E 00 03 00 00 00 01 02 03`, and the generated record decoder
applied to those bytes reproduces the original record with nothing left
over. -/
theorem claim_C1_named_record_concrete :
    serialize_NamedPacket ⟨5, [0x4A, 0x6F, 0x68, 0x6E], [1, 2, 3]⟩ =
      [0x05, 0x4A, 0x6F, 0x68, 0x6E, 0x00, 0x03, 0x00, 0x00, 0x00,
       0x01, 0x02, 0x03] ∧
    from_reader_NamedPacket
        [0x05, 0x4A, 0x6F, 0x68, 0x6E, 0x00, 0x03, 0x00, 0x00, 0x00,
         0x01, 0x02, 0x03] =
      .ok (⟨5, [0x4A, 0x6F, 0x68, 0x6E], [1, 2, 3]⟩, []) :=
  ⟨by decide, by decide⟩

/-- C2 counterexample: the claimed round trip fails for strings whose
content contains U+0000.  The one-character string `"\u0000"` (UTF-8 bytes
`[0]`) encodes to `[0]` (no terminator is appended because the string
already ends in NUL) and decodes back to the empty string, and the
mid-NUL string `"a\u0000b"` decodes back to just `"a"`. -/
theorem claim_C2_nul_string_counterexample :
    serialize_str [0] = [0] ∧
    from_reader_string (serialize_str [0]) = .ok ([], []) ∧
    from_reader_string (serialize_str [0]) ≠ .ok ([0], []) ∧
    from_reader_string (serialize_str [0x61, 0, 0x62]) ≠ .ok ([0x61, 0, 0x62], []) :=
  ⟨by decide, by decide, by decide, by decide⟩

/-- C2 (amended): decoding the bytes produced by encoding `v` yields `v`
for every fixed-width numeric value, boolean, Unicode scalar, every string
that contains no U+0000, every optional/fallible/dynamic-sequence/fixed-
array/tuple value whose components round-trip, and the derived record and
tagged union (every variant); strings containing U+0000 (mid-string or at
the end) are excluded. -/
theorem claim_C2_roundtrip_amended :
    (∀ w v, v < 256 ^ w → RT (from_reader_num w) (serialize_num w) v) ∧
    (∀ b : Bool, RT from_reader_bool serialize_bool b) ∧
    (∀ c, isScalar c = true → RT from_reader_char serialize_char c) ∧
    (∀ bs, isValidUtf8 bs = true → 0 ∉ bs → RT from_reader_string serialize_str bs) ∧
    (∀ (α : Type) (rd : Rd α) (we : α → List Nat) (v : Option α),
      (∀ x, v = some x → RT rd we x) →
      RT (from_reader_option rd) (serialize_option we) v) ∧
    (∀ (α β : Type) (rd : Rd α) (rdE : Rd β) (we : α → List Nat)
      (weE : β → List Nat) (v : Sum α β),
      (∀ x, v = .inl x → RT rd we x) → (∀ e, v = .inr e → RT rdE weE e) →
      RT (from_reader_result rd rdE) (serialize_result we weE) v) ∧
    (∀ (α : Type) (rd : Rd α) (we : α → List Nat) (l : List α),
      (∀ x ∈ l, RT rd we x) → l.length < 256 ^ 4 →
      RT (from_reader_vec rd) (serialize_vec we) l) ∧
    (∀ (α : Type) (rd : Rd α) (we : α → List Nat) (l : List α),
      (∀ x ∈ l, RT rd we x) →
      RT (from_reader_arr rd l.length) (serialize_arr we) l) ∧
    (∀ (α β : Type) (rd1 : Rd α) (rd2 : Rd β) (we1 : α → List Nat)
      (we2 : β → List Nat) (v : α × β), RT rd1 we1 v.1 → RT rd2 we2 v.2 →
      RT (from_reader_pair rd1 rd2) (serialize_pair we1 we2) v) ∧
    (∀ (α β γ : Type) (rd1 : Rd α) (rd2 : Rd β) (rd3 : Rd γ)
      (we1 : α → List Nat) (we2 : β → List Nat) (we3 : γ → List Nat)
      (v : α × β × γ), RT rd1 we1 v.1 → RT rd2 we2 v.2.1 → RT rd3 we3 v.2.2 →
      RT (from_reader_triple rd1 rd2 rd3) (serialize_triple we1 we2 we3) v) ∧
    (∀ v : Unit, RT from_reader_unit serialize_unit v) ∧
    (∀ p : NamedPacket, p.id < 256 → isValidUtf8 p.sender = true →
      0 ∉ p.sender → (∀ b ∈ p.content, b < 256) → p.content.length < 256 ^ 4 →
      RT from_reader_NamedPacket serialize_NamedPacket p) ∧
    (∀ v : EnumPacket, EnumPacketWF v →
      RT from_reader_EnumPacket serialize_EnumPacket v) :=
  ⟨from_reader_num_rt, from_reader_bool_rt, from_reader_char_rt,
   from_reader_string_rt,
   fun _ => from_reader_option_rt, fun _ _ => from_reader_result_rt,
   fun _ => from_reader_vec_rt, fun _ => from_reader_arr_rt,
   fun _ _ => from_reader_pair_rt, fun _ _ _ => from_reader_triple_rt,
   from_reader_unit_rt, from_reader_NamedPacket_rt, from_reader_EnumPacket_rt⟩

/-- C2 (amended) witness: the round trip evaluated at concrete inputs — the
number 5 as a `u32`, the string `"J"`, and every `EnumPacket` variant. -/
theorem claim_C2_roundtrip_amended_witness :
    from_reader_num 4 (serialize_num 4 5 ++ [9]) = .ok (5, [9]) ∧
    from_reader_string (serialize_str [0x4A] ++ [7]) = .ok ([0x4A], [7]) ∧
    from_reader_EnumPacket (serialize_EnumPacket .ping ++ []) = .ok (.ping, []) ∧
    from_reader_EnumPacket
        (serialize_EnumPacket (.playerJoin 7 [0x41]) ++ []) =
      .ok (.playerJoin 7 [0x41], []) ∧
    from_reader_EnumPacket
        (serialize_EnumPacket (.playerMove 2 [1, 2, 3]) ++ []) =
      .ok (.playerMove 2 [1, 2, 3], []) :=
  ⟨claim_C2_roundtrip_amended.1 4 5 (by norm_num) [9],
   claim_C2_roundtrip_amended.2.2.2.1 [0x4A] (by decide) (by decide) [7],
   (claim_C2_roundtrip_amended.2.2.2.2.2.2.2.2.2.2.2.2) .ping trivial [],
   (claim_C2_roundtrip_amended.2.2.2.2.2.2.2.2.2.2.2.2) (.playerJoin 7 [0x41])
     (by exact ⟨by norm_num, by decide, by decide⟩) [],
   (claim_C2_roundtrip_amended.2.2.2.2.2.2.2.2.2.2.2.2) (.playerMove 2 [1, 2, 3])
     (by exact ⟨by norm_num, by decide, by decide⟩) []⟩

/-- C3: for every tagged union, the generated match arm stored at declared
position `i` is exactly the writer whose baked-in tag literal is `i` — it
does not depend on the variant's declared content nor on the run-time value
— and applying it writes the tag (as the configured tag type, width `id_w`
bytes) first, then the variant's fields in declared order. -/
theorem claim_C3_enum_tag_by_declaration (δ : Type) (id_w : Nat)
    (variants : List δ) (i : Nat) (h : i < variants.length)
    (fieldBytes : List (List Nat)) :
    (impl_write_enum id_w variants).get? i = some (to_write_variant i id_w) ∧
    to_write_variant i id_w fieldBytes =
      serialize_num id_w i ++ fieldBytes.flatten :=
  ⟨impl_write_enum_get? id_w variants i h, rfl⟩

/-- C3 witness: a three-variant union `[A, B, C]`; the arm for `B` carries
tag 1 and writes it before the field bytes. -/
theorem claim_C3_witness :
    (impl_write_enum 1 ["A", "B", "C"]).get? 1 = some (to_write_variant 1 1) ∧
    to_write_variant 1 1 [[7], [8, 9]] = serialize_num 1 1 ++ [[7], [8, 9]].flatten :=
  claim_C3_enum_tag_by_declaration String 1 ["A", "B", "C"] 1 (by decide) [[7], [8, 9]]

/-- C4: when the generated union decoder reads a tag whose index is outside
the declared variants, it fails with an `InvalidInput` error whose message
contains the union's type name (so no value of the union is produced). -/
theorem claim_C4_enum_invalid_tag (α : Type) (id_w : Nat) (name : String)
    (arms : List (Rd α)) (s s1 : List Nat) (tag : Nat)
    (hr : from_reader_num id_w s = .ok (tag, s1)) (hge : arms.length ≤ tag) :
    ∃ msg, impl_read_enum id_w name arms s = .error (.invalidInput msg) ∧
      ∃ pre post, msg = pre ++ name ++ post :=
  ⟨"Invalid " ++ name ++ " variant id",
   impl_read_enum_bad_tag id_w name arms s s1 tag hr hge,
   "Invalid ", " variant id", rfl⟩

/-- C4 witness: a one-variant union named `Packet` fed the tag byte 5. -/
theorem claim_C4_witness :
    ∃ msg, impl_read_enum 1 "Packet" [fun s => Except.ok ((), s)] [5] =
        .error (.invalidInput msg) ∧
      ∃ pre post, msg = pre ++ "Packet" ++ post :=
  claim_C4_enum_invalid_tag Unit 1 "Packet" [fun s => Except.ok ((), s)]
    [5] [] 5 (by decide) (by decide)

/-- C5: for every fixed-width numeric type (widths 1, 2, 4, 8, 16 bytes:
the 8- to 128-bit integers, the platform integer at width 8, the single and
double floats at widths 4 and 8), decoding from a source with fewer than
`sizeof` bytes fails with an I/O error and never yields a value. -/
theorem claim_C5_truncated_numeric_fails (w : Nat) (hw : w ∈ [1, 2, 4, 8, 16])
    (s : List Nat) (h : s.length < w) :
    from_reader_num w s = .error .eof ∧
    ∀ v rest, from_reader_num w s ≠ .ok (v, rest) := by
  refine ⟨from_reader_num_short w s h, fun v rest hok => ?_⟩
  rw [from_reader_num_short w s h] at hok
  exact Except.noConfusion hok

/-- C5 witness: a `u32` decode from a 3-byte source. -/
theorem claim_C5_witness :
    from_reader_num 4 [1, 2, 3] = .error .eof ∧
    ∀ v rest, from_reader_num 4 [1, 2, 3] ≠ .ok (v, rest) :=
  claim_C5_truncated_numeric_fails 4 (by decide) [1, 2, 3] (by decide)

/-- C6: `PaddedReader::reads` first consumes exactly `padding` bytes
(failing with an I/O error when fewer are available) and then decodes with
the normal rule on the remaining stream; concretely, with padding 3 and
stream `FF FF FF 05 00 00 00` a `u32` decode returns 5. -/
theorem claim_C6_padded_reads (α : Type) (pr : PaddedReader) (rd : Rd α)
    (s : List Nat) :
    (pr.reads rd s =
      if pr.padding ≤ s.length then rd (List.drop pr.padding s)
      else .error .eof) ∧
    (PaddedReader.mk 3).reads (from_reader_num 4)
        [0xFF, 0xFF, 0xFF, 0x05, 0x00, 0x00, 0x00] = .ok (5, []) :=
  ⟨padded_reads_eq pr rd s, by decide⟩

/-- C7: `PaddedReader::reads_then_set_padding` decodes using the old
padding, and the stored padding becomes the new value exactly when the
decode succeeded; on failure the error is returned and the padding is
unchanged. -/
theorem claim_C7_reads_then_set_padding (α : Type) (pr : PaddedReader)
    (rd : Rd α) (q : Nat) (s : List Nat) :
    (pr.reads_then_set_padding rd q s).1 = pr.reads rd s ∧
    (pr.reads_then_set_padding rd q s).2 =
      (match pr.reads rd s with
       | .ok _ => PaddedReader.mk q
       | .error _ => pr) := by
  unfold PaddedReader.reads_then_set_padding
  cases pr.reads rd s <;> simp

/-- C8: boolean encode writes exactly one byte, 1 for true and 0 for false;
boolean decode consumes exactly one byte and returns true exactly when that
byte is nonzero (any nonzero byte, not just 1), and fails with an I/O error
on an empty source. -/
theorem claim_C8_bool_codec :
    serialize_bool true = [1] ∧
    serialize_bool false = [0] ∧
    (∀ b, (serialize_bool b).length = 1) ∧
    (∀ byte rest, from_reader_bool (byte :: rest) = .ok (decide (byte ≠ 0), rest)) ∧
    from_reader_bool [] = .error .eof :=
  ⟨rfl, rfl, fun b => by cases b <;> rfl, from_reader_bool_cons, rfl⟩

/-- C9: each of the four derive entry points rejects an empty field list /
empty variant list with the definition-time generation error, emitting no
encode/decode logic. -/
theorem claim_C9_empty_items_rejected (α δ : Type) (name : String) (id_w : Nat) :
    derive_read_struct (Fields.named ([] : List (String × Rd α))) =
      .compileError empty_item_msg ∧
    derive_read_struct (Fields.unnamed ([] : List (Rd α))) =
      .compileError empty_item_msg ∧
    derive_write_struct (Fields.named []) = .compileError empty_item_msg ∧
    derive_write_struct (Fields.unnamed []) = .compileError empty_item_msg ∧
    derive_read_enum name id_w ([] : List (Rd α)) = .compileError empty_item_msg ∧
    derive_write_enum id_w ([] : List δ) = .compileError empty_item_msg :=
  ⟨rfl, rfl, rfl, rfl, rfl, rfl⟩

/-- C10: whenever string decode succeeds, the returned string contains no
NUL byte: the decoder stops at the first NUL, which separates the returned
content from the unconsumed rest of the stream. -/
theorem claim_C10_string_decode_no_nul (s bs rest : List Nat)
    (h : from_reader_string s = .ok (bs, rest)) :
    0 ∉ bs ∧ s = bs ++ 0 :: rest := by
  simp only [from_reader_string] at h
  cases htu : take_until_nul s with
  | error e => simp [htu] at h
  | ok p =>
    obtain ⟨buf, rest0⟩ := p
    by_cases hu : isValidUtf8 buf = true
    · simp only [htu, hu, if_true, Except.ok.injEq, Prod.mk.injEq] at h
      obtain ⟨rfl, rfl⟩ := h
      exact take_until_nul_ok s _ _ htu
    · simp [htu, hu] at h

/-- C10 witness: decoding `41 00 09` yields the NUL-free string `"A"` and
leaves `09` unread. -/
theorem claim_C10_witness :
    (0 : Nat) ∉ [0x41] ∧ [0x41, 0, 9] = [0x41] ++ 0 :: [9] :=
  claim_C10_string_decode_no_nul [0x41, 0, 9] [0x41] [9] (by decide)

end Tora

